import Mathlib

/-!
Verification development for the live auction engine (socket handlers in
the backend's socket module). The definitions below are a shallow embedding
of the JavaScript source: module-level mutable state becomes an explicit
`EngineState`, each socket handler becomes a state-transforming function,
and every `socket.emit` / `io.emit` becomes an element of an emitted-event
list tagged with its destination.
-/

set_option linter.unusedVariables false

namespace BPL

/-- Player status as stored in the Player model. -/
inductive PStatus
  | AVAILABLE
  | IN_AUCTION
  | SOLD
  | UNSOLD
deriving DecidableEq, Repr

/-- Team record (fields of the Team model used by the socket handlers). -/
structure Team where
  id : Nat
  remainingPoints : Int
  rosterSlotsFilled : Int
  players : List Nat
deriving DecidableEq, Repr

/-- Player record (fields of the Player model used by the socket handlers). -/
structure Player where
  id : Nat
  basePrice : Int
  status : PStatus
  soldTo : Option Nat
  soldPrice : Option Int
  soldAt : Option Nat
deriving DecidableEq, Repr

/-- Bid ledger record (the Bid model). -/
structure Bid where
  player : Nat
  team : Nat
  amount : Int
  isWinning : Bool
deriving DecidableEq, Repr

/-- The currentHighBid sub-document of AuctionState. -/
structure HighBid where
  amount : Int
  team : Option Nat
deriving DecidableEq, Repr

/-- An entry of AuctionState.recentlySold. -/
structure SoldRecord where
  player : Nat
  team : Nat
  amount : Int
  soldAt : Nat
deriving DecidableEq, Repr

/-- The singleton AuctionState document. -/
structure AuctionState where
  currentPlayer : Option Nat
  currentHighBid : HighBid
  isActive : Bool
  isPaused : Bool
  lastBidAt : Option Nat
  auctionStartedAt : Option Nat
  recentlySold : List SoldRecord
deriving DecidableEq, Repr

/-- Modelled from the spec: the AuctionState model file itself is not under
src (only required by the socket module), so the document produced by
`new AuctionState()` is taken from the spec, section 3: no current lot,
sentinel high bid at the auction floor, inactive, empty ring buffer. -/
def AuctionState.init : AuctionState :=
  { currentPlayer := none
    currentHighBid := { amount := 5, team := none }
    isActive := false
    isPaused := false
    lastBidAt := none
    auctionStartedAt := none
    recentlySold := [] }

/-- The whole mutable state touched by the socket module: the persisted
stores (teams, players, bids, the AuctionState singleton), the in-memory
connection map `connectedTeams` (socket id, team id), and the module-level
globals `playerQueue`, `isAutoAuction`, `unsoldPlayers`,
`isTeamSummaryShowing`, the interval handle (`timerRunning`), `timerValue`,
and whether a `setTimeout` scheduled by `handleAutoSold` is still pending
(`pendingAdvance`; the source never stores this handle, so it can never be
cleared, only fired). -/
structure EngineState where
  teams : List Team
  players : List Player
  bids : List Bid
  auction : Option AuctionState
  connectedTeams : List (Nat × Nat)
  playerQueue : List Nat
  isAutoAuction : Bool
  unsoldPlayers : List Nat
  isTeamSummaryShowing : Bool
  timerRunning : Bool
  timerValue : Int
  pendingAdvance : Bool
deriving DecidableEq, Repr

/-- Destination of an emitted socket event: the originating socket only,
every connected client (io.emit), or the admin room. -/
inductive EmitTarget
  | toSocket
  | broadcast
  | toAdmin
deriving DecidableEq, Repr

/-- Names of the socket events the modelled handlers emit. -/
inductive EventName
  | bidError
  | bidNew
  | bidSuccess
  | timerUpdate
  | timerReset
  | errorMsg
  | auctionStarted
  | auctionPaused
  | auctionResumed
  | saleUndone
  | autoStarted
  | autoStopped
  | playerUnsoldEvt
  | queueUpdate
  | unsoldRound
  | autoCompleted
  | allCompleted
  | playerSold
  | teamsStatus
deriving DecidableEq, Repr

/-- One emitted socket event. -/
structure Emit where
  target : EmitTarget
  event : EventName
deriving DecidableEq, Repr

/-- Reasons a bid:place request is rejected (the bid:error messages). -/
inductive BidError
  | notAuthenticated
  | auctionNotActive
  | playerNotInAuction
  | belowMinimum
  | notHigherThanCurrent
  | insufficientPoints
  | alreadyHighestBidder
  | failedToPlaceBid
deriving DecidableEq, Repr

/-- Team.findById. -/
def findTeam (ts : List Team) (tid : Nat) : Option Team :=
  ts.find? (fun t => t.id = tid)

/-- Player.findById. -/
def findPlayer (ps : List Player) (pid : Nat) : Option Player :=
  ps.find? (fun p => p.id = pid)

/-- Persisting a mutated team document (team.save()). -/
def updateTeam (ts : List Team) (tid : Nat) (f : Team → Team) : List Team :=
  ts.map (fun t => if t.id = tid then f t else t)

/-- Persisting a mutated player document (player.save()). -/
def updatePlayer (ps : List Player) (pid : Nat) (f : Player → Player) : List Player :=
  ps.map (fun p => if p.id = pid then f p else p)

/-- TIMER_DURATION (Number.parseInt(process.env.TIMER_DURATION) with
fallback 20; modelled at its fallback). -/
def TIMER_DURATION : Int := 20

/-- The bid:place handler. Returns the new state, the emitted events, and
the rejection reason (none on success). Mirrors the source line by line:
connection lookup, AuctionState active/paused check, current player fetch
and IN_AUCTION check, the minimum / strictly-higher check split on
hasNoBids, the remaining-points check (reading team.remainingPoints throws
into the catch block when the team document is missing), the
self-outbid check, then the Bid insert, AuctionState update and timer
reset. -/
def placeBid (s : EngineState) (sockId : Nat) (amount : Int) (now : Nat) :
    EngineState × List Emit × Option BidError :=
  match s.connectedTeams.find? (fun c => c.1 = sockId) with
  | none => (s, [⟨.toSocket, .bidError⟩], some .notAuthenticated)
  | some conn =>
    match s.auction with
    | none => (s, [⟨.toSocket, .bidError⟩], some .auctionNotActive)
    | some a =>
      if !a.isActive || a.isPaused then
        (s, [⟨.toSocket, .bidError⟩], some .auctionNotActive)
      else
        match a.currentPlayer.bind (findPlayer s.players) with
        | none => (s, [⟨.toSocket, .bidError⟩], some .playerNotInAuction)
        | some p =>
          if p.status ≠ .IN_AUCTION then
            (s, [⟨.toSocket, .bidError⟩], some .playerNotInAuction)
          else
            if a.currentHighBid.team.isNone ∧ amount < a.currentHighBid.amount then
              (s, [⟨.toSocket, .bidError⟩], some .belowMinimum)
            else if ¬a.currentHighBid.team.isNone ∧ amount ≤ a.currentHighBid.amount then
              (s, [⟨.toSocket, .bidError⟩], some .notHigherThanCurrent)
            else
              match findTeam s.teams conn.2 with
              | none => (s, [⟨.toSocket, .bidError⟩], some .failedToPlaceBid)
              | some t =>
                if amount > t.remainingPoints then
                  (s, [⟨.toSocket, .bidError⟩], some .insufficientPoints)
                else if ¬a.currentHighBid.team.isNone ∧
                    a.currentHighBid.team = some t.id then
                  (s, [⟨.toSocket, .bidError⟩], some .alreadyHighestBidder)
                else
                  ({ s with
                      bids := s.bids ++ [⟨p.id, t.id, amount, false⟩]
                      auction := some { a with
                        currentHighBid := ⟨amount, some t.id⟩
                        lastBidAt := some now }
                      timerValue := 10 },
                   [⟨.broadcast, .timerReset⟩, ⟨.broadcast, .bidNew⟩,
                    ⟨.toSocket, .bidSuccess⟩], none)

/-- startAuctionForPlayer: marks the player IN_AUCTION, gets or creates the
AuctionState singleton, points it at the player with a fresh high bid at the
base price, and starts the countdown (startTimer sets the interval handle
and resets timerValue to TIMER_DURATION). -/
def startAuctionForPlayer (s : EngineState) (playerId : Nat) (now : Nat) :
    EngineState × List Emit :=
  match findPlayer s.players playerId with
  | none => (s, [])
  | some p =>
    if p.status = .SOLD then (s, [])
    else
      let a0 := s.auction.getD AuctionState.init
      ({ s with
          players := updatePlayer s.players p.id (fun q => { q with status := .IN_AUCTION })
          auction := some { a0 with
            currentPlayer := some p.id
            isActive := true
            isPaused := false
            currentHighBid := ⟨p.basePrice, none⟩
            auctionStartedAt := some now }
          timerRunning := true
          timerValue := TIMER_DURATION },
       [⟨.broadcast, .timerUpdate⟩, ⟨.broadcast, .auctionStarted⟩])

/-- The admin:startAuction handler (manual start): admin check, the
isTeamSummaryShowing presentation-lock check, availability check, then the
shared startAuctionForPlayer. -/
def adminStartAuction (s : EngineState) (isAdmin : Bool) (playerId : Nat) (now : Nat) :
    EngineState × List Emit :=
  if !isAdmin then (s, [⟨.toSocket, .errorMsg⟩])
  else if s.isTeamSummaryShowing then (s, [⟨.toSocket, .errorMsg⟩])
  else
    match findPlayer s.players playerId with
    | none => (s, [⟨.toSocket, .errorMsg⟩])
    | some p =>
      if p.status = .SOLD then (s, [⟨.toSocket, .errorMsg⟩])
      else startAuctionForPlayer s playerId now

/-- The admin:pauseAuction handler: sets isPaused and stops the interval. -/
def pauseAuction (s : EngineState) (isAdmin : Bool) : EngineState × List Emit :=
  if !isAdmin then (s, [])
  else
    match s.auction with
    | none => (s, [])
    | some a =>
      ({ s with auction := some { a with isPaused := true }, timerRunning := false },
       [⟨.broadcast, .auctionPaused⟩])

/-- The admin:resumeAuction handler: clears isPaused and restarts the
countdown from TIMER_DURATION. -/
def resumeAuction (s : EngineState) (isAdmin : Bool) : EngineState × List Emit :=
  if !isAdmin then (s, [])
  else
    match s.auction with
    | none => (s, [])
    | some a =>
      if a.isPaused then
        let s1 := { s with
          auction := some { a with isPaused := false }
          timerRunning := true
          timerValue := TIMER_DURATION }
        (s1, [⟨.broadcast, .timerUpdate⟩, ⟨.broadcast, .auctionResumed⟩])
      else (s, [])

/-- The admin:undoSale handler: requires status SOLD, credits the selling
team by soldPrice (JavaScript adds 0 when the field is null), decrements
rosterSlotsFilled, filters the player out of the roster, resets the player
to UNSOLD with null sale fields, and deletes the bid history for the
player. -/
def undoSale (s : EngineState) (isAdmin : Bool) (playerId : Nat) :
    EngineState × List Emit :=
  if !isAdmin then (s, [])
  else
    match findPlayer s.players playerId with
    | none => (s, [⟨.toSocket, .errorMsg⟩])
    | some p =>
      if p.status ≠ .SOLD then (s, [⟨.toSocket, .errorMsg⟩])
      else
        let teams' :=
          match p.soldTo.bind (findTeam s.teams) with
          | some t =>
            updateTeam s.teams t.id (fun u =>
              { u with
                  remainingPoints := u.remainingPoints + p.soldPrice.getD 0
                  rosterSlotsFilled := u.rosterSlotsFilled - 1
                  players := u.players.filter (fun q => q ≠ p.id) })
          | none => s.teams
        ({ s with
            teams := teams'
            players := updatePlayer s.players p.id (fun q =>
              { q with status := .UNSOLD, soldTo := none, soldPrice := none, soldAt := none })
            bids := s.bids.filter (fun b => b.player ≠ p.id) },
         [⟨.broadcast, .saleUndone⟩])

/-- handleAutoSold: the settlement routine run when the countdown reaches
zero (and after force triggers). Stops the timer, returns early when there
is no AuctionState or no (resolvable) current player, otherwise settles:
with a populated winning team the player is SOLD and the team debited,
else the player is UNSOLD and (in auto mode, idempotently) appended to
unsoldPlayers; in both branches the AuctionState is reset and, in auto
mode, a delayed processNextPlayerInQueue is scheduled (pendingAdvance). -/
def handleAutoSold (s : EngineState) (now : Nat) : EngineState × List Emit :=
  let s0 := { s with timerRunning := false }
  match s0.auction with
  | none => (s0, [])
  | some a =>
    match a.currentPlayer.bind (findPlayer s0.players) with
    | none => (s0, [])
    | some p =>
      let soldPrice := a.currentHighBid.amount
      let a' := { a with
        isActive := false
        currentPlayer := none
        currentHighBid := ⟨5, none⟩ }
      match a.currentHighBid.team.bind (findTeam s0.teams) with
      | some t =>
        let rs0 : List SoldRecord := ⟨p.id, t.id, soldPrice, now⟩ :: a.recentlySold
        let s1 := { s0 with
          players := updatePlayer s0.players p.id (fun q =>
            { q with
                status := .SOLD
                soldTo := some t.id
                soldPrice := some soldPrice
                soldAt := some now })
          teams := updateTeam s0.teams t.id (fun u =>
            { u with
                remainingPoints := u.remainingPoints - soldPrice
                rosterSlotsFilled := u.rosterSlotsFilled + 1
                players := u.players ++ [p.id] })
          auction := some { a' with
            recentlySold := if rs0.length > 10 then rs0.take 10 else rs0 } }
        let s2 := if s1.isAutoAuction then { s1 with pendingAdvance := true } else s1
        (s2, [⟨.broadcast, .playerSold⟩, ⟨.broadcast, .teamsStatus⟩])
      | none =>
        let pushUnsold := s0.isAutoAuction ∧ p.id ∉ s0.unsoldPlayers
        let s1 := { s0 with
          players := updatePlayer s0.players p.id (fun q => { q with status := .UNSOLD })
          unsoldPlayers :=
            if pushUnsold then s0.unsoldPlayers ++ [p.id] else s0.unsoldPlayers
          auction := some a' }
        let s2 := if s1.isAutoAuction then { s1 with pendingAdvance := true } else s1
        (s2, (if pushUnsold then [Emit.mk .toAdmin .playerUnsoldEvt] else []) ++
          [⟨.broadcast, .playerSold⟩, ⟨.broadcast, .teamsStatus⟩])

/-- processNextPlayerInQueue: pops the queue and starts the popped player
unless it was sold out-of-band (then skips to the next); when the queue is
empty it promotes the unsold-carry list to a new round, and when both are
empty it ends auto mode. The source recursion is modelled with explicit
fuel; fuel exhaustion returns the state unchanged. -/
def processNextPlayerInQueue : Nat → EngineState → Nat → EngineState × List Emit
  | 0, s, _ => (s, [])
  | fuel + 1, s, now =>
    match s.playerQueue with
    | pid :: rest =>
      let s1 := { s with playerQueue := rest }
      match findPlayer s1.players pid with
      | some p =>
        if p.status ≠ .SOLD then
          let r := startAuctionForPlayer s1 pid now
          (r.1, Emit.mk .toAdmin .queueUpdate :: r.2)
        else
          let r := processNextPlayerInQueue fuel s1 now
          (r.1, Emit.mk .toAdmin .queueUpdate :: r.2)
      | none =>
        let r := processNextPlayerInQueue fuel s1 now
        (r.1, Emit.mk .toAdmin .queueUpdate :: r.2)
    | [] =>
      if s.unsoldPlayers.length > 0 then
        let s1 := { s with playerQueue := s.unsoldPlayers, unsoldPlayers := [] }
        let r := processNextPlayerInQueue fuel s1 now
        (r.1, Emit.mk .toAdmin .unsoldRound :: r.2)
      else
        ({ s with isAutoAuction := false },
         [⟨.toAdmin, .autoCompleted⟩, ⟨.broadcast, .allCompleted⟩])

/-- Firing of the setTimeout scheduled by handleAutoSold: the callback runs
processNextPlayerInQueue unconditionally; the handle is consumed. -/
def firePendingAdvance (fuel : Nat) (s : EngineState) (now : Nat) :
    EngineState × List Emit :=
  if s.pendingAdvance then
    processNextPlayerInQueue fuel { s with pendingAdvance := false } now
  else (s, [])

/-- One Fisher-Yates swap step: exchange positions i and j (identity when
either index is out of range, which never happens for in-range calls). -/
def swapL {α : Type} (l : List α) (i j : Nat) : List α :=
  match l[i]?, l[j]? with
  | some a, some b => (l.set i b).set j a
  | _, _ => l

/-- The Fisher-Yates loop of admin:startAutoAuction, counting i down from
length - 1 to 1 and swapping position i with position
rand i % (i + 1) (the model of Math.floor(Math.random() * (i + 1))). -/
def fyAux {α : Type} (rand : Nat → Nat) : Nat → List α → List α
  | 0, l => l
  | i + 1, l => fyAux rand i (swapL l (i + 1) (rand (i + 1) % (i + 2)))

/-- Fisher-Yates shuffle of one price group. -/
def fisherYates {α : Type} (rand : Nat → Nat) (l : List α) : List α :=
  fyAux rand (l.length - 1) l

/-- The queue-building part of admin:startAutoAuction: keep the non-SOLD
players, group them by basePrice, sort the distinct base prices in
descending order, shuffle each group, and concatenate. -/
def buildQueue (rand : Int → Nat → Nat) (allPlayers : List Player) : List Player :=
  let avail := allPlayers.filter (fun p => p.status ≠ PStatus.SOLD)
  let prices := ((avail.map (fun p => p.basePrice)).dedup).insertionSort (fun a b => a ≥ b)
  prices.flatMap (fun v => fisherYates (rand v) (avail.filter (fun p => p.basePrice = v)))

/-- The admin:startAutoAuction handler: builds the queue, resets the
unsold-carry list, raises the auto flag, and starts the first player. -/
def startAutoAuction (rand : Int → Nat → Nat) (fuel : Nat) (s : EngineState)
    (isAdmin : Bool) (now : Nat) : EngineState × List Emit :=
  if !isAdmin then (s, [⟨.toSocket, .errorMsg⟩])
  else if (s.players.filter (fun p => p.status ≠ PStatus.SOLD)).length = 0 then
    (s, [⟨.toSocket, .errorMsg⟩])
  else
    let s1 := { s with
      playerQueue := (buildQueue rand s.players).map (fun p => p.id)
      unsoldPlayers := []
      isAutoAuction := true }
    let r := processNextPlayerInQueue fuel s1 now
    (r.1, Emit.mk .toAdmin .autoStarted :: r.2)

/-- The admin:stopAutoAuction handler: clears the mode flag and stops the
interval timer. The setTimeout handle from handleAutoSold is nowhere stored
in the source, so pendingAdvance is (faithfully) not cleared. -/
def stopAutoAuction (s : EngineState) (isAdmin : Bool) : EngineState × List Emit :=
  if !isAdmin then (s, [])
  else
    ({ s with isAutoAuction := false, timerRunning := false },
     [⟨.toAdmin, .autoStopped⟩])

/-- The bigscreen:summaryStarting handler. -/
def summaryStarting (s : EngineState) : EngineState × List Emit :=
  ({ s with isTeamSummaryShowing := true }, [⟨.toAdmin, .teamsStatus⟩])

/-- The bigscreen:summaryComplete handler. -/
def summaryComplete (s : EngineState) : EngineState × List Emit :=
  ({ s with isTeamSummaryShowing := false }, [⟨.toAdmin, .teamsStatus⟩])

/-- One countdown tick of the interval started by startTimer: decrement,
and on reaching zero stop the interval and settle. -/
def timerTick (s : EngineState) (now : Nat) : EngineState × List Emit :=
  if s.timerRunning then
    if s.timerValue - 1 ≤ 0 then
      let r := handleAutoSold
        { s with timerValue := s.timerValue - 1, timerRunning := false } now
      (r.1, Emit.mk .broadcast .timerUpdate :: r.2)
    else
      ({ s with timerValue := s.timerValue - 1 }, [⟨.broadcast, .timerUpdate⟩])
  else (s, [])

/-- Bid validation exactly as worded in the specification (section 4.2),
in the spec's order: NotAuthenticated; AuctionInactive (no lot in auction,
or paused); BelowMinimum (no prior accepted bid exists and
amount < basePrice); NotHigherThanCurrent (a prior accepted bid exists and
amount ≤ currentHighBid.amount); InsufficientBudget
(amount > budgetRemaining); AlreadyHighBidder. Used only as the reference
side of the refinement theorem about placeBid. -/
def arbiterSpec (authed active paused hasPrior : Bool)
    (basePrice highAmount budget amount : Int) (alreadyHolder : Bool) :
    Option BidError :=
  if authed = false then some .notAuthenticated
  else if active = false ∨ paused = true then some .auctionNotActive
  else if hasPrior = false ∧ amount < basePrice then some .belowMinimum
  else if hasPrior = true ∧ amount ≤ highAmount then some .notHigherThanCurrent
  else if amount > budget then some .insufficientPoints
  else if alreadyHolder = true then some .alreadyHighestBidder
  else none

/-- Budget-safety invariant: all budgets non-negative, base prices and
recorded sale prices non-negative, and whenever a team holds the current
high bid its remaining points cover the bid amount; team ids are distinct
(the engine never creates teams). -/
def Inv (s : EngineState) : Prop :=
  (∀ t ∈ s.teams, 0 ≤ t.remainingPoints) ∧
  (∀ p ∈ s.players, 0 ≤ p.basePrice) ∧
  (∀ p ∈ s.players, 0 ≤ p.soldPrice.getD 0) ∧
  (∀ a, s.auction = some a →
    0 ≤ a.currentHighBid.amount ∧
    ∀ tid t, a.currentHighBid.team = some tid → findTeam s.teams tid = some t →
      a.currentHighBid.amount ≤ t.remainingPoints) ∧
  (s.teams.map Team.id).Nodup

/-- One mutating entry point of the engine: every socket handler, timer
tick, settlement trigger and delayed callback of the module. -/
inductive Step : EngineState → EngineState → Prop
  | bid (s : EngineState) (sock : Nat) (amt : Int) (now : Nat) :
      Step s (placeBid s sock amt now).1
  | manualStart (s : EngineState) (adm : Bool) (pid now : Nat) :
      Step s (adminStartAuction s adm pid now).1
  | pause (s : EngineState) (adm : Bool) : Step s (pauseAuction s adm).1
  | resume (s : EngineState) (adm : Bool) : Step s (resumeAuction s adm).1
  | undo (s : EngineState) (adm : Bool) (pid : Nat) : Step s (undoSale s adm pid).1
  | autoStart (rand : Int → Nat → Nat) (fuel : Nat) (s : EngineState)
      (adm : Bool) (now : Nat) : Step s (startAutoAuction rand fuel s adm now).1
  | autoStop (s : EngineState) (adm : Bool) : Step s (stopAutoAuction s adm).1
  | settle (s : EngineState) (now : Nat) : Step s (handleAutoSold s now).1
  | tick (s : EngineState) (now : Nat) : Step s (timerTick s now).1
  | advance (fuel : Nat) (s : EngineState) (now : Nat) :
      Step s (processNextPlayerInQueue fuel s now).1
  | fire (fuel : Nat) (s : EngineState) (now : Nat) :
      Step s (firePendingAdvance fuel s now).1
  | summaryOn (s : EngineState) : Step s (summaryStarting s).1
  | summaryOff (s : EngineState) : Step s (summaryComplete s).1
  | connect (s : EngineState) (conns : List (Nat × Nat)) :
      Step s { s with connectedTeams := conns }

/-- States reachable from a given state by any sequence of engine
operations. -/
def Reachable : EngineState → EngineState → Prop :=
  Relation.ReflTransGen Step

/-- Bidder A of the worked example in the specification, section 8. -/
def teamA : Team := ⟨1, 50, 0, []⟩

/-- Bidder B of the worked example in the specification, section 8. -/
def teamB : Team := ⟨2, 30, 0, []⟩

/-- The example lot at base price 10. -/
def playerX : Player := ⟨10, 10, .AVAILABLE, none, none, none⟩

/-- The example lot while in auction. -/
def playerXInAuction : Player := ⟨10, 10, .IN_AUCTION, none, none, none⟩

/-- Example idle state: two authenticated bidders, one available lot. -/
def stateIdle : EngineState :=
  ⟨[teamA, teamB], [playerX], [], none, [(101, 1), (102, 2)], [], false, [],
   false, false, 20, false⟩

/-- AuctionState right after the example lot was started (fresh high bid at
the base price, no bidder). -/
def auctionFresh : AuctionState := ⟨some 10, ⟨10, none⟩, true, false, none, none, []⟩

/-- Example state with the lot freshly in auction and no bids yet. -/
def stateStarted : EngineState :=
  ⟨[teamA, teamB], [playerXInAuction], [], some auctionFresh,
   [(101, 1), (102, 2)], [], false, [], false, true, 20, false⟩

/-- Same situation during an auto-run. -/
def stateStartedAuto : EngineState :=
  ⟨[teamA, teamB], [playerXInAuction], [], some auctionFresh,
   [(101, 1), (102, 2)], [], true, [], false, true, 20, false⟩

/-- Example state in which bidder A leads at 20. -/
def auctionLed : AuctionState := ⟨some 10, ⟨20, some 1⟩, true, false, some 5, none, []⟩

/-- Engine state in which bidder A leads the example lot at 20. -/
def stateLed : EngineState :=
  ⟨[teamA, teamB], [playerXInAuction], [⟨10, 1, 20, false⟩], some auctionLed,
   [(101, 1), (102, 2)], [], false, [], false, true, 10, false⟩

/-- The state after the countdown expired on stateLed: lot SOLD to A at
20. -/
def stateSold : EngineState := (handleAutoSold stateLed 6).1

/-- A state whose AuctionState has isActive already false while a current
player with a live high bid is still referenced (used to examine which
field actually gates settlement). -/
def auctionGate : AuctionState := ⟨some 10, ⟨20, some 1⟩, false, false, none, none, []⟩

/-- Engine state around auctionGate. -/
def stateGate : EngineState :=
  ⟨[teamA], [playerXInAuction], [], some auctionGate, [], [], false, [],
   false, false, 20, false⟩

/-- Auto-run state with one queued lot while the big screen has raised the
team-summary presentation lock. -/
def stateAutoLocked : EngineState :=
  ⟨[teamA], [playerX], [], none, [], [10], true, [], true, false, 20, true⟩

/-- Auto-run state with one queued lot and a pending delayed advance
scheduled by a previous settlement (summary lock not held). -/
def stateAutoPending : EngineState :=
  ⟨[teamA], [playerX], [], some ⟨none, ⟨5, none⟩, false, false, none, none, []⟩,
   [], [10], true, [], false, false, 20, true⟩

/-- Active auction whose persisted current player record is not IN_AUCTION
any more (stale AuctionState). -/
def stateStale : EngineState :=
  ⟨[teamA, teamB], [playerX], [], some auctionFresh, [(101, 1), (102, 2)],
   [], false, [], false, true, 20, false⟩

lemma findTeam_id {ts : List Team} {tid : Nat} {t : Team}
    (h : findTeam ts tid = some t) : t.id = tid := by
  have := List.find?_some h
  simpa using this

lemma findTeam_mem {ts : List Team} {tid : Nat} {t : Team}
    (h : findTeam ts tid = some t) : t ∈ ts :=
  List.mem_of_find?_eq_some h

lemma findPlayer_id {ps : List Player} {pid : Nat} {p : Player}
    (h : findPlayer ps pid = some p) : p.id = pid := by
  have := List.find?_some h
  simpa using this

lemma findPlayer_mem {ps : List Player} {pid : Nat} {p : Player}
    (h : findPlayer ps pid = some p) : p ∈ ps :=
  List.mem_of_find?_eq_some h

lemma findTeam_updateTeam (ts : List Team) (k tid : Nat) (f : Team → Team)
    (hf : ∀ t, (f t).id = t.id) :
    findTeam (updateTeam ts k f) tid =
      (findTeam ts tid).map (fun t => if t.id = k then f t else t) := by
  induction ts with
  | nil => rfl
  | cons t ts ih =>
    have hid : (if t.id = k then f t else t).id = t.id := by
      split <;> simp [hf]
    by_cases h : t.id = tid
    · subst h
      simp [findTeam, updateTeam, List.find?_cons, hid]
    · simp only [findTeam, updateTeam, List.map_cons, List.find?_cons, hid, h] at *
      simp [h, ih]

lemma findPlayer_updatePlayer (ps : List Player) (k pid : Nat) (f : Player → Player)
    (hf : ∀ p, (f p).id = p.id) :
    findPlayer (updatePlayer ps k f) pid =
      (findPlayer ps pid).map (fun p => if p.id = k then f p else p) := by
  induction ps with
  | nil => rfl
  | cons p ps ih =>
    have hid : (if p.id = k then f p else p).id = p.id := by
      split <;> simp [hf]
    by_cases h : p.id = pid
    · subst h
      simp [findPlayer, updatePlayer, List.find?_cons, hid]
    · simp only [findPlayer, updatePlayer, List.map_cons, List.find?_cons, hid, h] at *
      simp [h, ih]

lemma map_id_updateTeam (ts : List Team) (k : Nat) (f : Team → Team)
    (hf : ∀ t, (f t).id = t.id) :
    (updateTeam ts k f).map Team.id = ts.map Team.id := by
  unfold updateTeam
  rw [List.map_map]
  apply List.map_congr_left
  intro t ht
  by_cases h : t.id = k <;> simp [h, hf]

lemma mem_updateTeam {ts : List Team} {k : Nat} {f : Team → Team} {u : Team}
    (h : u ∈ updateTeam ts k f) :
    ∃ v ∈ ts, u = if v.id = k then f v else v := by
  unfold updateTeam at h
  rcases List.mem_map.mp h with ⟨v, hv, hvu⟩
  exact ⟨v, hv, hvu.symm⟩

lemma mem_updatePlayer {ps : List Player} {k : Nat} {f : Player → Player} {q : Player}
    (h : q ∈ updatePlayer ps k f) :
    ∃ v ∈ ps, q = if v.id = k then f v else v := by
  unfold updatePlayer at h
  rcases List.mem_map.mp h with ⟨v, hv, hvq⟩
  exact ⟨v, hv, hvq.symm⟩

lemma handleAutoSold_noop (s : EngineState) (m : Nat)
    (h1 : s.timerRunning = false)
    (h2 : ∀ a, s.auction = some a →
      a.currentPlayer.bind (findPlayer s.players) = none) :
    handleAutoSold s m = (s, []) := by
  obtain ⟨tm, pl, bi, au, ct, pq, ia, up, ts, tr, tv, pa⟩ := s
  simp only at h1 h2
  subst h1
  unfold handleAutoSold
  rcases au with _ | a
  · rfl
  · have := h2 a rfl
    simp only [this]

lemma handleAutoSold_timer (s : EngineState) (n : Nat) :
    (handleAutoSold s n).1.timerRunning = false := by
  unfold handleAutoSold
  rcases ha : s.auction with _ | a <;> simp only [ha]
  rcases hp : a.currentPlayer.bind (findPlayer s.players) with _ | p <;> simp only [hp]
  rcases hw : a.currentHighBid.team.bind (findTeam s.teams) with _ | t <;>
    simp only [hw] <;> split <;> rfl

lemma handleAutoSold_resolved (s : EngineState) (n : Nat) :
    ∀ a', (handleAutoSold s n).1.auction = some a' →
      a'.currentPlayer.bind (findPlayer (handleAutoSold s n).1.players) = none := by
  unfold handleAutoSold
  rcases ha : s.auction with _ | a <;> simp only [ha]
  · intro a' h
    simp at h
  rcases hp : a.currentPlayer.bind (findPlayer s.players) with _ | p <;> simp only [hp]
  · intro a' h
    simp at h
    subst h
    simpa using hp
  rcases hw : a.currentHighBid.team.bind (findTeam s.teams) with _ | t <;>
    simp only [hw] <;> split <;> intro a' h <;> simp at h <;>
    subst h <;> rfl

lemma placeBid_shape (s : EngineState) (sock : Nat) (amt : Int) (now : Nat) :
    (∃ e, placeBid s sock amt now = (s, [⟨.toSocket, .bidError⟩], some e)) ∨
    (placeBid s sock amt now).2.2 = none := by
  unfold placeBid
  repeat' split
  all_goals simp

lemma placeBid_err_shape (s : EngineState) (sock : Nat) (amt : Int) (now : Nat)
    (e : BidError) (h : (placeBid s sock amt now).2.2 = some e) :
    placeBid s sock amt now = (s, [⟨.toSocket, .bidError⟩], some e) := by
  rcases placeBid_shape s sock amt now with ⟨e', he'⟩ | hn
  · rw [he'] at h ⊢
    simp only [Option.some.injEq] at h
    rw [h]
  · rw [hn] at h
    cases h

lemma placeBid_success_shape (s : EngineState) (sock : Nat) (amt : Int) (now : Nat)
    (h : (placeBid s sock amt now).2.2 = none) :
    ∃ conn a p t,
      s.connectedTeams.find? (fun c => c.1 = sock) = some conn ∧
      s.auction = some a ∧
      a.currentPlayer.bind (findPlayer s.players) = some p ∧
      findTeam s.teams conn.2 = some t ∧
      a.currentHighBid.amount ≤ amt ∧ amt ≤ t.remainingPoints ∧
      placeBid s sock amt now =
        ({ s with
            bids := s.bids ++ [⟨p.id, t.id, amt, false⟩]
            auction := some { a with
              currentHighBid := ⟨amt, some t.id⟩
              lastBidAt := some now }
            timerValue := 10 },
         [⟨.broadcast, .timerReset⟩, ⟨.broadcast, .bidNew⟩,
          ⟨.toSocket, .bidSuccess⟩], none) := by
  revert h
  unfold placeBid
  repeat' split
  all_goals intro h
  all_goals try (simp at h)
  rename_i x1 conn hconn x2 a ha hact x3 p hp hstat hc6 hc7 x4 t ht hbud hc10
  refine ⟨conn, a, p, t, hconn, ha, hp, ht, ?_, ?_, rfl⟩
  · by_cases hteam : a.currentHighBid.team.isNone = true
    · have hx : ¬(amt < a.currentHighBid.amount) := fun hlt => hc6 ⟨hteam, hlt⟩
      omega
    · have hx : ¬(amt ≤ a.currentHighBid.amount) := fun hle => hc7 ⟨hteam, hle⟩
      omega
  · omega

lemma handleAutoSold_winner_shape (s : EngineState) (n : Nat) (a : AuctionState)
    (pid : Nat) (p : Player) (t : Team)
    (ha : s.auction = some a) (hcp : a.currentPlayer = some pid)
    (hp : findPlayer s.players pid = some p)
    (hw : a.currentHighBid.team.bind (findTeam s.teams) = some t) :
    (handleAutoSold s n).1.teams =
      updateTeam s.teams t.id (fun u =>
        { u with
            remainingPoints := u.remainingPoints - a.currentHighBid.amount
            rosterSlotsFilled := u.rosterSlotsFilled + 1
            players := u.players ++ [p.id] }) ∧
    (handleAutoSold s n).1.players =
      updatePlayer s.players p.id (fun q =>
        { q with
            status := PStatus.SOLD
            soldTo := some t.id
            soldPrice := some a.currentHighBid.amount
            soldAt := some n }) ∧
    (handleAutoSold s n).1.bids = s.bids ∧
    (handleAutoSold s n).1.unsoldPlayers = s.unsoldPlayers := by
  unfold handleAutoSold
  simp only [ha]
  have hbind : a.currentPlayer.bind (findPlayer s.players) = some p := by
    rw [hcp]
    simpa using hp
  simp only [hbind, hw]
  split <;> simp

lemma handleAutoSold_unsold_shape (s : EngineState) (n : Nat) (a : AuctionState)
    (pid : Nat) (p : Player)
    (ha : s.auction = some a) (hcp : a.currentPlayer = some pid)
    (hp : findPlayer s.players pid = some p)
    (hw : a.currentHighBid.team.bind (findTeam s.teams) = none) :
    (handleAutoSold s n).1.teams = s.teams ∧
    (handleAutoSold s n).1.players =
      updatePlayer s.players p.id (fun q => { q with status := PStatus.UNSOLD }) ∧
    (handleAutoSold s n).1.bids = s.bids ∧
    (handleAutoSold s n).1.unsoldPlayers =
      (if s.isAutoAuction = true ∧ p.id ∉ s.unsoldPlayers
       then s.unsoldPlayers ++ [p.id] else s.unsoldPlayers) := by
  unfold handleAutoSold
  simp only [ha]
  have hbind : a.currentPlayer.bind (findPlayer s.players) = some p := by
    rw [hcp]
    simpa using hp
  simp only [hbind, hw]
  split <;> simp

lemma handleAutoSold_auction_reset (s : EngineState) (n : Nat) (a : AuctionState)
    (pid : Nat) (p : Player)
    (ha : s.auction = some a) (hcp : a.currentPlayer = some pid)
    (hp : findPlayer s.players pid = some p) :
    ∃ a', (handleAutoSold s n).1.auction = some a' ∧
      a'.currentPlayer = none ∧ a'.isActive = false ∧
      a'.currentHighBid = ⟨5, none⟩ := by
  unfold handleAutoSold
  simp only [ha]
  have hbind : a.currentPlayer.bind (findPlayer s.players) = some p := by
    rw [hcp]
    simpa using hp
  simp only [hbind]
  rcases hw : a.currentHighBid.team.bind (findTeam s.teams) with _ | t <;>
    simp only [hw] <;> split <;> exact ⟨_, rfl, rfl, rfl, rfl⟩

/-- C1: placeBid applies the validation rules in the order fixed by the
specification and accepts exactly when every check passes. Under the
reachability facts that the current player exists with persisted status
IN_AUCTION, the bidder's team record exists, and (while no accepted bid
exists) currentHighBid.amount equals the lot's basePrice, the handler's
outcome coincides with the spec's arbiter cascade (arbiterSpec): so a
first bid equal to basePrice passes the BelowMinimum check (strict <),
while once a prior accepted bid exists a bid equal to
currentHighBid.amount is rejected (ties rejected), budget and
self-outbid checks following in the spec's order; on acceptance the Bid
is appended, currentHighBid and lastBidAt are updated and the timer is
reset. -/
theorem placeBid_refines_spec_arbiter (s : EngineState) (sock : Nat)
    (amount : Int) (now : Nat)
    (conn : Nat × Nat) (a : AuctionState) (p : Player) (t : Team)
    (hc : s.connectedTeams.find? (fun c => c.1 = sock) = some conn)
    (ha : s.auction = some a)
    (hp : a.currentPlayer.bind (findPlayer s.players) = some p)
    (hst : p.status = PStatus.IN_AUCTION)
    (ht : findTeam s.teams conn.2 = some t)
    (hbase : a.currentHighBid.team = none → a.currentHighBid.amount = p.basePrice) :
    placeBid s sock amount now =
      match arbiterSpec true a.isActive a.isPaused a.currentHighBid.team.isSome
          p.basePrice a.currentHighBid.amount t.remainingPoints amount
          (decide (a.currentHighBid.team = some t.id)) with
      | some e => (s, [⟨.toSocket, .bidError⟩], some e)
      | none =>
        ({ s with
            bids := s.bids ++ [⟨p.id, t.id, amount, false⟩]
            auction := some { a with
              currentHighBid := ⟨amount, some t.id⟩
              lastBidAt := some now }
            timerValue := 10 },
         [⟨.broadcast, .timerReset⟩, ⟨.broadcast, .bidNew⟩,
          ⟨.toSocket, .bidSuccess⟩], none) := by
  unfold placeBid arbiterSpec
  simp only [hc, ha, hp, ht, hst]
  rcases hteam : a.currentHighBid.team with _ | tid
  · have hb : a.currentHighBid.amount = p.basePrice := hbase hteam
    cases hact : a.isActive <;> cases hpau : a.isPaused <;>
      simp [hteam, ← hb, hst] <;> split_ifs <;> rfl
  · cases hact : a.isActive <;> cases hpau : a.isPaused <;>
      simp [hteam, hst] <;> split_ifs <;> rfl

/-- C1 witness: in the fresh example state (no prior bid, high bid equal
to base price 10), bidder A's bid of exactly the base price is accepted,
matching the spec arbiter. -/
theorem placeBid_refines_spec_arbiter_witness :
    (placeBid stateStarted 101 10 99).2.2 = none ∧
    arbiterSpec true true false false 10 10 50 10 false = none := by
  have h := placeBid_refines_spec_arbiter stateStarted 101 10 99 (101, 1)
    auctionFresh playerXInAuction teamA rfl rfl rfl rfl rfl (fun _ => rfl)
  constructor
  · rw [h]
    rfl
  · rfl

/-- C2 counterexample: the settlement routine is not gated by
isActive == false. In stateGate the AuctionState has isActive = false, yet
invoking the settlement routine still mutates the teams store (it debits
the referenced high bidder), so observing isActive == false is not what
makes a second invocation a no-op. -/
theorem settlement_gate_not_isActive_cex :
    stateGate.auction.map AuctionState.isActive = some false ∧
    (handleAutoSold stateGate 0).1.teams ≠ stateGate.teams := by decide

/-- C2 amended: settlement is idempotent per activation cycle: after one
invocation of the settlement routine completes, a second invocation
returns the state unchanged and emits nothing (no second status
transition, no second debit or credit); the gate that makes it a no-op is
observing a cleared currentPlayer (and for a player no longer resolvable),
not isActive == false. -/
theorem settlement_second_invocation_noop (s : EngineState) (n m : Nat) :
    handleAutoSold (handleAutoSold s n).1 m = ((handleAutoSold s n).1, []) :=
  handleAutoSold_noop _ m (handleAutoSold_timer s n) (handleAutoSold_resolved s n)

/-- C3 amended: a manual Control start attempt is rejected with a
transient error while the team-summary presentation lock is held, leaving
the state unchanged (no lot enters auction, no timer starts); the
automatic queue path, by contrast, does not consult the lock (see the
counterexample). -/
theorem manual_start_rejected_when_lock_held (s : EngineState) (pid now : Nat)
    (h : s.isTeamSummaryShowing = true) :
    adminStartAuction s true pid now = (s, [⟨.toSocket, .errorMsg⟩]) := by
  unfold adminStartAuction
  simp [h]

/-- C3 amended, witness: the concrete locked state rejects a manual start
with no state change. -/
theorem manual_start_rejected_when_lock_held_witness :
    adminStartAuction stateAutoLocked true 10 0 =
      (stateAutoLocked, [⟨.toSocket, .errorMsg⟩]) :=
  manual_start_rejected_when_lock_held stateAutoLocked 10 0 rfl

/-- C3 counterexample: a start attempt taken automatically from the
auto-run queue while the presentation lock is held is NOT rejected: the
queued lot enters auction (isActive becomes true, the player becomes
IN_AUCTION) and the countdown timer is started. -/
theorem auto_start_ignores_lock_cex :
    stateAutoLocked.isTeamSummaryShowing = true ∧
    (firePendingAdvance 5 stateAutoLocked 0).1.auction.map AuctionState.isActive =
      some true ∧
    findPlayer (firePendingAdvance 5 stateAutoLocked 0).1.players 10 =
      some playerXInAuction ∧
    (firePendingAdvance 5 stateAutoLocked 0).1.timerRunning = true := by decide

/-- C4: evaluation of the code at the failing scenario: after
admin:stopAutoAuction (mode flag cleared) the delayed advance scheduled by
an earlier settlement is still pending — the source never stores the
setTimeout handle, so stopping cannot cancel it — and when it fires it
starts the next queued lot: the lot enters auction and the countdown
starts even though auto-run was stopped. -/
theorem stale_advance_fires_after_stop :
    (stopAutoAuction stateAutoPending true).1.isAutoAuction = false ∧
    (stopAutoAuction stateAutoPending true).1.pendingAdvance = true ∧
    (firePendingAdvance 5 (stopAutoAuction stateAutoPending true).1 0).1.auction.map
      AuctionState.isActive = some true ∧
    findPlayer (firePendingAdvance 5 (stopAutoAuction stateAutoPending true).1 0).1.players
      10 = some playerXInAuction ∧
    (firePendingAdvance 5 (stopAutoAuction stateAutoPending true).1 0).1.timerRunning =
      true := by decide

/-- C5: whenever settlement resolves a lot with no (resolvable) high
bidder, the lot's persisted status becomes UNSOLD; when auto-run is
active its id is appended to the unsold-carry list at most once (the
membership test makes appending idempotent, and the list stays
duplicate-free); and in every settlement that resolves a lot, whichever
branch ran, the AuctionState afterwards has currentPlayer cleared to
null, isActive false, and currentHighBid reset to the sentinel
(amount 5, bidder null). -/
theorem settlement_unsold_and_reset (s : EngineState) (n : Nat)
    (a : AuctionState) (pid : Nat) (p : Player)
    (ha : s.auction = some a) (hcp : a.currentPlayer = some pid)
    (hp : findPlayer s.players pid = some p) :
    (∀ a', (handleAutoSold s n).1.auction = some a' →
      a'.currentPlayer = none ∧ a'.isActive = false ∧
      a'.currentHighBid = ⟨5, none⟩) ∧
    ((handleAutoSold s n).1.auction).isSome = true ∧
    (a.currentHighBid.team.bind (findTeam s.teams) = none →
      findPlayer (handleAutoSold s n).1.players pid =
        some { p with status := PStatus.UNSOLD } ∧
      (handleAutoSold s n).1.unsoldPlayers =
        (if s.isAutoAuction = true ∧ pid ∉ s.unsoldPlayers
         then s.unsoldPlayers ++ [pid] else s.unsoldPlayers) ∧
      (s.isAutoAuction = true → pid ∈ (handleAutoSold s n).1.unsoldPlayers) ∧
      (s.unsoldPlayers.Nodup → (handleAutoSold s n).1.unsoldPlayers.Nodup)) := by
  have hpid : p.id = pid := findPlayer_id hp
  subst hpid
  obtain ⟨a', ha', hcp', hact', hhb'⟩ := handleAutoSold_auction_reset s n a p.id p ha hcp hp
  refine ⟨?_, ?_, ?_⟩
  · intro a'' h
    rw [ha'] at h
    cases h
    exact ⟨hcp', hact', hhb'⟩
  · rw [ha']
    rfl
  · intro hw
    obtain ⟨hteams, hplayers, hbids, hunsold⟩ :=
      handleAutoSold_unsold_shape s n a p.id p ha hcp hp hw
    refine ⟨?_, hunsold, ?_, ?_⟩
    · rw [hplayers, findPlayer_updatePlayer s.players p.id p.id
        (fun q => { q with status := PStatus.UNSOLD }) (fun q => rfl), hp]
      simp
    · intro hauto
      rw [hunsold]
      by_cases hmem : p.id ∈ s.unsoldPlayers
      · simp [hauto, hmem]
      · simp [hauto, hmem]
    · intro hnd
      rw [hunsold]
      split
      · next hcond =>
          exact List.Nodup.append hnd (List.nodup_singleton _)
            (by simpa [List.disjoint_singleton] using hcond.2)
      · exact hnd

/-- C5 witness: expiry with no bids during auto-run marks the example lot
UNSOLD, carries its id exactly once, and resets the AuctionState to the
sentinel. -/
theorem settlement_unsold_and_reset_witness :
    findPlayer (handleAutoSold stateStartedAuto 9).1.players 10 =
      some { playerXInAuction with status := PStatus.UNSOLD } ∧
    (handleAutoSold stateStartedAuto 9).1.unsoldPlayers = [10] ∧
    (handleAutoSold stateStartedAuto 9).1.auction.map
      (fun a => (a.currentPlayer, a.isActive, a.currentHighBid)) =
      some (none, false, (⟨5, none⟩ : HighBid)) := by
  have h := settlement_unsold_and_reset stateStartedAuto 9 auctionFresh 10
    playerXInAuction rfl rfl rfl
  obtain ⟨h1, h2, h3⟩ := h
  have h4 := h3 rfl
  refine ⟨h4.1, ?_, ?_⟩
  · rw [h4.2.1]
    decide
  · decide

lemma undoSale_sold_effects (s : EngineState) (p : Player) (t : Team) (v : Int)
    (hp : findPlayer s.players p.id = some p)
    (hst : p.status = PStatus.SOLD) (hsoldTo : p.soldTo = some t.id)
    (hsp : p.soldPrice = some v)
    (ht : findTeam s.teams t.id = some t) :
    findTeam (undoSale s true p.id).1.teams t.id =
      some { t with
          remainingPoints := t.remainingPoints + v
          rosterSlotsFilled := t.rosterSlotsFilled - 1
          players := t.players.filter (fun q => q ≠ p.id) } ∧
    findPlayer (undoSale s true p.id).1.players p.id =
      some { p with
          status := PStatus.UNSOLD
          soldTo := none
          soldPrice := none
          soldAt := none } ∧
    (undoSale s true p.id).1.bids = s.bids.filter (fun b => b.player ≠ p.id) := by
  unfold undoSale
  simp only [hp, hst, hsoldTo, Option.some_bind, ht, Bool.not_true,
    Bool.false_eq_true, if_false, ne_eq, not_true_eq_false]
  refine ⟨?_, ?_, ?_⟩
  · rw [findTeam_updateTeam s.teams t.id t.id
      (fun u =>
        { u with
            remainingPoints := u.remainingPoints + p.soldPrice.getD 0
            rosterSlotsFilled := u.rosterSlotsFilled - 1
            players := u.players.filter (fun q => q ≠ p.id) })
      (fun u => rfl), ht]
    simp [hsp]
  · rw [findPlayer_updatePlayer s.players p.id p.id
      (fun q =>
        { q with
            status := PStatus.UNSOLD
            soldTo := none
            soldPrice := none
            soldAt := none })
      (fun q => rfl), hp]
    simp
  · trivial

lemma sold_then_undo_restores (s : EngineState) (n : Nat) (a : AuctionState)
    (pid : Nat) (p : Player) (t : Team)
    (ha : s.auction = some a) (hcp : a.currentPlayer = some pid)
    (hp : findPlayer s.players pid = some p)
    (hw : a.currentHighBid.team.bind (findTeam s.teams) = some t)
    (hnp : pid ∉ t.players) :
    findTeam (undoSale (handleAutoSold s n).1 true pid).1.teams t.id = some t ∧
    findPlayer (undoSale (handleAutoSold s n).1 true pid).1.players pid =
      some { p with
          status := PStatus.UNSOLD
          soldTo := none
          soldPrice := none
          soldAt := none } := by
  have hpid := findPlayer_id hp
  subst hpid
  obtain ⟨hteams, hplayers, hbids, hunsold⟩ :=
    handleAutoSold_winner_shape s n a p.id p t ha hcp hp hw
  have ht0 : findTeam s.teams t.id = some t := by
    rcases hto : a.currentHighBid.team with _ | tid0
    · rw [hto] at hw
      simp at hw
    · rw [hto] at hw
      simp only [Option.some_bind] at hw
      have := findTeam_id hw
      rw [this]
      exact hw
  have hp1 : findPlayer (handleAutoSold s n).1.players p.id =
      some { p with
          status := PStatus.SOLD
          soldTo := some t.id
          soldPrice := some a.currentHighBid.amount
          soldAt := some n } := by
    rw [hplayers, findPlayer_updatePlayer s.players p.id p.id
      (fun q =>
        { q with
            status := PStatus.SOLD
            soldTo := some t.id
            soldPrice := some a.currentHighBid.amount
            soldAt := some n })
      (fun q => rfl), hp]
    simp
  have ht1 : findTeam (handleAutoSold s n).1.teams t.id =
      some { t with
          remainingPoints := t.remainingPoints - a.currentHighBid.amount
          rosterSlotsFilled := t.rosterSlotsFilled + 1
          players := t.players ++ [p.id] } := by
    rw [hteams, findTeam_updateTeam s.teams t.id t.id
      (fun u =>
        { u with
            remainingPoints := u.remainingPoints - a.currentHighBid.amount
            rosterSlotsFilled := u.rosterSlotsFilled + 1
            players := u.players ++ [p.id] })
      (fun u => rfl), ht0]
    simp
  have heff := undoSale_sold_effects (handleAutoSold s n).1
    { p with
        status := PStatus.SOLD
        soldTo := some t.id
        soldPrice := some a.currentHighBid.amount
        soldAt := some n }
    { t with
        remainingPoints := t.remainingPoints - a.currentHighBid.amount
        rosterSlotsFilled := t.rosterSlotsFilled + 1
        players := t.players ++ [p.id] }
    a.currentHighBid.amount hp1 rfl rfl rfl ht1
  obtain ⟨he1, he2, he3⟩ := heff
  constructor
  · rw [he1]
    congr 1
    obtain ⟨tid', rem, ros, pls⟩ := t
    simp only at hnp
    simp only [Team.mk.injEq]
    refine ⟨trivial, by omega, by omega, ?_⟩
    rw [List.filter_append]
    simp only [List.filter_cons, List.filter_nil]
    have h1 : pls.filter (fun q => q ≠ p.id) = pls :=
      List.filter_eq_self.mpr (fun q hq => by
        simp only [ne_eq, decide_eq_true_eq]
        intro hqe
        exact hnp (hqe ▸ hq))
    simp [h1]
    exact fun q hq hqe => hnp (hqe ▸ hq)
  · rw [he2]

/-- C7: undoSale is a left inverse of a SOLD settlement on the winner's
record and the lot: it fails with the cannot-undo error (state unchanged)
unless the lot's status is SOLD; on success it credits the winner's
budget by exactly soldPrice, decrements the roster count, removes the lot
from the winner's roster, deletes every Bid record of the lot, and resets
the lot to UNSOLD with null winner, soldPrice and soldAt; and composing a
SOLD settlement with undoSale restores the winner's full record
(budgetRemaining back to its pre-sale value). -/
theorem undoSale_left_inverse :
    (∀ s pid p, findPlayer s.players pid = some p →
      p.status ≠ PStatus.SOLD →
      undoSale s true pid = (s, [⟨.toSocket, .errorMsg⟩])) ∧
    (∀ s p t v, findPlayer s.players p.id = some p →
      p.status = PStatus.SOLD → p.soldTo = some t.id → p.soldPrice = some v →
      findTeam s.teams t.id = some t →
      findTeam (undoSale s true p.id).1.teams t.id =
        some { t with
            remainingPoints := t.remainingPoints + v
            rosterSlotsFilled := t.rosterSlotsFilled - 1
            players := t.players.filter (fun q => q ≠ p.id) } ∧
      findPlayer (undoSale s true p.id).1.players p.id =
        some { p with
            status := PStatus.UNSOLD
            soldTo := none
            soldPrice := none
            soldAt := none } ∧
      (undoSale s true p.id).1.bids = s.bids.filter (fun b => b.player ≠ p.id)) ∧
    (∀ s n a pid p t, s.auction = some a → a.currentPlayer = some pid →
      findPlayer s.players pid = some p →
      a.currentHighBid.team.bind (findTeam s.teams) = some t →
      pid ∉ t.players →
      findTeam (undoSale (handleAutoSold s n).1 true pid).1.teams t.id = some t ∧
      findPlayer (undoSale (handleAutoSold s n).1 true pid).1.players pid =
        some { p with
            status := PStatus.UNSOLD
            soldTo := none
            soldPrice := none
            soldAt := none }) := by
  refine ⟨?_, ?_, ?_⟩
  · intro s pid p hp hst
    unfold undoSale
    simp [hp, hst]
  · intro s p t v hp hst hsoldTo hsp ht
    exact undoSale_sold_effects s p t v hp hst hsoldTo hsp ht
  · intro s n a pid p t ha hcp hp hw hnp
    exact sold_then_undo_restores s n a pid p t ha hcp hp hw hnp

/-- C7 witness: undo on a lot that is not SOLD fails with no state
change; and for the worked example (lot sold to A at 20 by settlement of
stateLed) undoSale restores team A exactly (budget back to 50, roster 0,
empty roster list) and resets the lot to UNSOLD with null sale fields. -/
theorem undoSale_left_inverse_witness :
    undoSale stateStarted true 10 = (stateStarted, [⟨.toSocket, .errorMsg⟩]) ∧
    findTeam (undoSale (handleAutoSold stateLed 6).1 true 10).1.teams 1 =
      some teamA ∧
    findPlayer (undoSale (handleAutoSold stateLed 6).1 true 10).1.players 10 =
      some { playerX with status := PStatus.UNSOLD } := by
  have h := undoSale_left_inverse
  have h3 := h.2.2 stateLed 6 auctionLed 10 playerXInAuction teamA rfl rfl rfl
    rfl (by decide)
  exact ⟨h.1 stateStarted 10 playerXInAuction rfl (by decide), h3.1, h3.2⟩

/-- C9: every rejected bid:place request leaves the entire engine state
unchanged (no Bid appended, AuctionState untouched, no budget change,
timer not reset) and all events it emits go only to the originating
socket. -/
theorem rejected_bid_leaves_state_unchanged (s : EngineState) (sock : Nat)
    (amt : Int) (now : Nat) (e : BidError)
    (h : (placeBid s sock amt now).2.2 = some e) :
    (placeBid s sock amt now).1 = s ∧
    ∀ em ∈ (placeBid s sock amt now).2.1, em.target = EmitTarget.toSocket := by
  have h2 := placeBid_err_shape s sock amt now e h
  rw [h2]
  refine ⟨rfl, ?_⟩
  intro em hem
  simp only [List.mem_singleton] at hem
  subst hem
  rfl

/-- C9 witness: a concrete rejected tie bid (B offers 20 while A leads at
20) leaves the state unchanged and answers only the originating socket. -/
theorem rejected_bid_leaves_state_unchanged_witness :
    (placeBid stateLed 102 20 7).1 = stateLed ∧
    ∀ em ∈ (placeBid stateLed 102 20 7).2.1, em.target = EmitTarget.toSocket :=
  rejected_bid_leaves_state_unchanged stateLed 102 20 7 .notHigherThanCurrent (by decide)

/-- C10: even when the auction is active and not paused and the bidder is
authenticated, a bid is rejected with the player-not-in-auction error (and
no state change) whenever the referenced current player record cannot be
found or its persisted status is not IN_AUCTION. -/
theorem placeBid_rejects_stale_current_player (s : EngineState) (sock : Nat)
    (amt : Int) (now : Nat) (conn : Nat × Nat) (a : AuctionState)
    (hc : s.connectedTeams.find? (fun c => c.1 = sock) = some conn)
    (ha : s.auction = some a) (hact : a.isActive = true) (hpau : a.isPaused = false)
    (hp : ∀ p, a.currentPlayer.bind (findPlayer s.players) = some p →
      p.status ≠ PStatus.IN_AUCTION) :
    placeBid s sock amt now = (s, [⟨.toSocket, .bidError⟩], some .playerNotInAuction) := by
  unfold placeBid
  simp only [hc, ha, hact, hpau]
  rcases hpp : a.currentPlayer.bind (findPlayer s.players) with _ | p <;> simp only [hpp]
  · simp
  · have hne := hp p hpp
    simp [hne]

/-- C10 witness: the stale state (auction active but the persisted player
back to AVAILABLE) rejects a concrete bid with the player-not-in-auction
error and no state change. -/
theorem placeBid_rejects_stale_current_player_witness :
    placeBid stateStale 101 15 3 =
      (stateStale, [⟨.toSocket, .bidError⟩], some .playerNotInAuction) :=
  placeBid_rejects_stale_current_player stateStale 101 15 3 (101, 1) auctionFresh
    rfl rfl rfl rfl
    (by
      intro p hp
      have e : auctionFresh.currentPlayer.bind (findPlayer stateStale.players) =
          some playerX := rfl
      rw [e] at hp
      cases hp
      decide)

lemma cons_set_perm {α : Type} (x b : α) (xs : List α) (m : Nat)
    (h : xs[m]? = some b) :
    List.Perm (b :: xs.set m x) (x :: xs) := by
  induction xs generalizing m with
  | nil => simp at h
  | cons y ys ih =>
    cases m with
    | zero =>
      have h0 : y = b := by simpa using h
      subst h0
      simpa using List.Perm.swap x y ys
    | succ m =>
      simp only [List.getElem?_cons_succ] at h
      show List.Perm (b :: y :: ys.set m x) (x :: y :: ys)
      exact ((List.Perm.swap y b (ys.set m x)).trans ((ih m h).cons y)).trans
        (List.Perm.swap x y ys)

lemma set_set_perm {α : Type} (l : List α) (i j : Nat) (a b : α)
    (hi : l[i]? = some a) (hj : l[j]? = some b) :
    List.Perm ((l.set i b).set j a) l := by
  induction l generalizing i j with
  | nil => simp at hi
  | cons x xs ih =>
    cases i with
    | zero =>
      have h0 : x = a := by simpa using hi
      subst h0
      cases j with
      | zero => simp
      | succ m =>
        simp only [List.getElem?_cons_succ] at hj
        show List.Perm (b :: xs.set m x) (x :: xs)
        exact cons_set_perm x b xs m hj
    | succ n =>
      simp only [List.getElem?_cons_succ] at hi
      cases j with
      | zero =>
        have h0 : x = b := by simpa using hj
        subst h0
        show List.Perm (a :: xs.set n x) (x :: xs)
        exact cons_set_perm x a xs n hi
      | succ m =>
        simp only [List.getElem?_cons_succ] at hj
        show List.Perm (x :: (xs.set n b).set m a) (x :: xs)
        exact (ih n m hi hj).cons x

lemma swapL_perm {α : Type} (l : List α) (i j : Nat) :
    List.Perm (swapL l i j) l := by
  unfold swapL
  rcases hi : l[i]? with _ | a <;> rcases hj : l[j]? with _ | b <;>
    simp only [hi, hj] <;>
    first
      | exact List.Perm.refl l
      | exact set_set_perm l i j a b hi hj

lemma fyAux_perm {α : Type} (rand : Nat → Nat) (i : Nat) (l : List α) :
    List.Perm (fyAux rand i l) l := by
  induction i generalizing l with
  | zero => exact List.Perm.refl l
  | succ i ih =>
    exact (ih _).trans (swapL_perm l (i + 1) (rand (i + 1) % (i + 2)))

lemma fisherYates_perm {α : Type} (rand : Nat → Nat) (l : List α) :
    List.Perm (fisherYates rand l) l :=
  fyAux_perm rand (l.length - 1) l

lemma flatMap_perm_congr {α β : Type} (vs : List α) (f g : α → List β)
    (h : ∀ v ∈ vs, List.Perm (f v) (g v)) :
    List.Perm (vs.flatMap f) (vs.flatMap g) := by
  induction vs with
  | nil => exact List.Perm.refl _
  | cons v vs ih =>
    simp only [List.flatMap_cons]
    exact (h v (List.mem_cons_self v vs)).append
      (ih (fun u hu => h u (List.mem_cons_of_mem v hu)))

lemma flatMap_filter_perm {α : Type} (key : α → Int) (vs : List Int)
    (l : List α) (hnd : vs.Nodup) (hcov : ∀ x ∈ l, key x ∈ vs) :
    List.Perm (vs.flatMap (fun v => l.filter (fun x => key x = v))) l := by
  induction vs generalizing l with
  | nil =>
    cases l with
    | nil => exact List.Perm.refl _
    | cons x xs => exact absurd (hcov x (List.mem_cons_self x xs)) (by simp)
  | cons v vs ih =>
    simp only [List.flatMap_cons]
    have hvne : v ∉ vs := (List.nodup_cons.mp hnd).1
    have hstep : ∀ v' ∈ vs,
        l.filter (fun x => key x = v') =
          (l.filter (fun x => !(decide (key x = v)))).filter (fun x => key x = v') := by
      intro v' hv'
      rw [List.filter_filter]
      apply List.filter_congr
      intro x hx
      by_cases hkey : key x = v'
      · have hne : ¬(v' = v) := fun he => hvne (he ▸ hv')
        have hne2 : ¬(key x = v) := fun he => hne (by rw [← hkey, he])
        simp [hkey, hne, hne2]
      · simp [hkey]
    rw [List.flatMap_congr hstep]
    have hih := ih (l.filter (fun x => !(decide (key x = v))))
      (List.nodup_cons.mp hnd).2
      (fun x hx => by
        have hxl : x ∈ l := List.mem_of_mem_filter hx
        have hkx : key x ∈ v :: vs := hcov x hxl
        have hne : ¬(key x = v) := by
          have := List.of_mem_filter hx
          simpa using this
        rcases List.mem_cons.mp hkx with he | hm
        · exact absurd he hne
        · exact hm)
    exact (List.Perm.append (List.Perm.refl _) hih).trans
      (List.filter_append_perm (fun x => key x = v) l)



lemma sorted_flatMap_key (vs : List Int) (f : Int → List Player)
    (hs : List.Sorted (fun a b : Int => a ≥ b) vs)
    (hf : ∀ v ∈ vs, ∀ x ∈ f v, x.basePrice = v) :
    List.Sorted (fun a b : Int => a ≥ b)
      ((vs.flatMap f).map (fun p => p.basePrice)) := by
  induction vs with
  | nil => simp
  | cons v vs ih =>
    rw [List.flatMap_cons, List.map_append]
    rw [List.sorted_cons] at hs
    unfold List.Sorted
    rw [List.pairwise_append]
    refine ⟨?_, ?_, ?_⟩
    · apply List.pairwise_of_forall_mem_list
      intro a ha b hb
      rcases List.mem_map.mp ha with ⟨x, hx, hxa⟩
      rcases List.mem_map.mp hb with ⟨y, hy, hyb⟩
      have hxv := hf v (List.mem_cons_self v vs) x hx
      have hyv := hf v (List.mem_cons_self v vs) y hy
      rw [← hxa, ← hyb, hxv, hyv]
    · exact ih hs.2 (fun v' hv' => hf v' (List.mem_cons_of_mem v hv'))
    · intro a ha b hb
      rcases List.mem_map.mp ha with ⟨x, hx, hxa⟩
      rcases List.mem_map.mp hb with ⟨y, hy, hyb⟩
      rcases List.mem_flatMap.mp hy with ⟨v', hv', hyv'⟩
      have hxv := hf v (List.mem_cons_self v vs) x hx
      have hyv := hf v' (List.mem_cons_of_mem v hv') y hyv'
      rw [← hxa, ← hyb, hxv, hyv]
      exact hs.1 v' hv'

/-- C6: the auto-run queue builder produces a permutation of the non-SOLD
input lots (length preserved, each lot exactly once, SOLD lots excluded)
whose base prices are non-increasing along the queue, for every outcome of
the per-group Fisher-Yates shuffle: every lot of a higher base-price group
precedes every lot of a lower one, ordering inside a group being given
only by the shuffle. -/
theorem buildQueue_sorted_permutation (rand : Int → Nat → Nat) (ps : List Player) :
    List.Perm (buildQueue rand ps)
      (ps.filter (fun p => p.status ≠ PStatus.SOLD)) ∧
    List.Sorted (fun a b : Int => a ≥ b)
      ((buildQueue rand ps).map (fun p => p.basePrice)) ∧
    (∀ p ∈ buildQueue rand ps, p.status ≠ PStatus.SOLD) := by
  have hbq : buildQueue rand ps =
      ((((ps.filter (fun p => p.status ≠ PStatus.SOLD)).map
          (fun p => p.basePrice)).dedup).insertionSort (fun a b => a ≥ b)).flatMap
        (fun v => fisherYates (rand v)
          ((ps.filter (fun p => p.status ≠ PStatus.SOLD)).filter
            (fun p => p.basePrice = v))) := rfl
  have hnd : ((((ps.filter (fun p => p.status ≠ PStatus.SOLD)).map
      (fun p => p.basePrice)).dedup).insertionSort (fun a b => a ≥ b)).Nodup :=
    (List.perm_insertionSort _ _).nodup_iff.mpr (List.nodup_dedup _)
  have hcov : ∀ x ∈ ps.filter (fun p => p.status ≠ PStatus.SOLD),
      x.basePrice ∈ (((ps.filter (fun p => p.status ≠ PStatus.SOLD)).map
        (fun p => p.basePrice)).dedup).insertionSort (fun a b => a ≥ b) := by
    intro x hx
    rw [List.mem_insertionSort, List.mem_dedup]
    exact List.mem_map_of_mem (fun p => p.basePrice) hx
  have hperm : List.Perm (buildQueue rand ps)
      (ps.filter (fun p => p.status ≠ PStatus.SOLD)) := by
    rw [hbq]
    refine (flatMap_perm_congr _ _ _
      (fun v _ => fisherYates_perm (rand v) _)).trans ?_
    exact flatMap_filter_perm (fun p : Player => p.basePrice) _ _ hnd hcov
  refine ⟨hperm, ?_, ?_⟩
  · rw [hbq]
    apply sorted_flatMap_key
    · exact List.sorted_insertionSort _ _
    · intro v hv x hx
      have hx2 := (fisherYates_perm (rand v) _).mem_iff.mp hx
      have := List.of_mem_filter hx2
      simpa using this
  · intro p hp
    have := hperm.mem_iff.mp hp
    have := List.of_mem_filter this
    simpa using this

lemma inv_auction_replace (s s' : EngineState) (hI : Inv s)
    (ht : s'.teams = s.teams) (hp : s'.players = s.players)
    (ha : ∀ a', s'.auction = some a' →
      (∃ a, s.auction = some a ∧ a'.currentHighBid = a.currentHighBid) ∨
      (0 ≤ a'.currentHighBid.amount ∧ a'.currentHighBid.team = none)) :
    Inv s' := by
  obtain ⟨h1, h2, h3, h4, h5⟩ := hI
  refine ⟨?_, ?_, ?_, ?_, ?_⟩
  · rw [ht]; exact h1
  · rw [hp]; exact h2
  · rw [hp]; exact h3
  · intro a' h
    rcases ha a' h with ⟨a, haa, heq⟩ | ⟨hpos, hnone⟩
    · have h4a := h4 a haa
      refine ⟨heq ▸ h4a.1, ?_⟩
      intro tid t h1' h2'
      rw [heq] at h1' ⊢
      rw [ht] at h2'
      exact h4a.2 tid t h1' h2'
    · refine ⟨hpos, ?_⟩
      intro tid t h1' h2'
      rw [hnone] at h1'
      cases h1'
  · rw [ht]; exact h5

lemma bind_findTeam_some {o : Option Nat} {ts : List Team} {t : Team}
    (h : o.bind (findTeam ts) = some t) :
    findTeam ts t.id = some t ∧ o = some t.id := by
  rcases ho : o with _ | tid
  · rw [ho] at h
    simp at h
  · rw [ho] at h
    simp only [Option.some_bind] at h
    have hid := findTeam_id h
    constructor
    · rw [hid]; exact h
    · exact congrArg some hid.symm

lemma inv_placeBid (s : EngineState) (sock : Nat) (amt : Int) (now : Nat)
    (hI : Inv s) : Inv (placeBid s sock amt now).1 := by
  rcases placeBid_shape s sock amt now with ⟨e, heq⟩ | hnone
  · rw [heq]; exact hI
  · obtain ⟨conn, a, p, t, hconn, ha, hp, ht, hge, hle, heq⟩ :=
      placeBid_success_shape s sock amt now hnone
    rw [heq]
    obtain ⟨h1, h2, h3, h4, h5⟩ := hI
    have h0 : 0 ≤ a.currentHighBid.amount := (h4 a ha).1
    refine ⟨h1, h2, h3, ?_, h5⟩
    intro a'' h
    have h' := Option.some.inj h
    subst h'
    refine ⟨le_trans h0 hge, ?_⟩
    intro tid t' h1' h2'
    have htid : tid = t.id := (Option.some.inj h1').symm
    subst htid
    have ht' : findTeam s.teams t.id = some t := by
      rw [findTeam_id ht]
      exact ht
    rw [ht'] at h2'
    have := Option.some.inj h2'
    subst this
    exact hle

lemma inv_startAuctionForPlayer (s : EngineState) (pid now : Nat)
    (hI : Inv s) : Inv (startAuctionForPlayer s pid now).1 := by
  unfold startAuctionForPlayer
  rcases hp : findPlayer s.players pid with _ | p <;> simp only [hp]
  · exact hI
  split
  · exact hI
  obtain ⟨h1, h2, h3, h4, h5⟩ := hI
  have hpm := findPlayer_mem hp
  refine ⟨h1, ?_, ?_, ?_, h5⟩
  · intro q hq
    rcases mem_updatePlayer hq with ⟨v, hv, rfl⟩
    split <;> exact h2 v hv
  · intro q hq
    rcases mem_updatePlayer hq with ⟨v, hv, rfl⟩
    split <;> exact h3 v hv
  · intro a'' h
    have h' := Option.some.inj h
    subst h'
    exact ⟨h2 p hpm, fun tid t h1' h2' => by cases h1'⟩



lemma inv_same_core (s s' : EngineState) (hI : Inv s)
    (ht : s'.teams = s.teams) (hp : s'.players = s.players)
    (ha : s'.auction = s.auction) : Inv s' :=
  inv_auction_replace s s' hI ht hp
    (fun a' h => Or.inl ⟨a', by rw [← ha]; exact h, rfl⟩)

lemma inv_handleAutoSold (s : EngineState) (n : Nat) (hI : Inv s) :
    Inv (handleAutoSold s n).1 := by
  rcases ha : s.auction with _ | a
  · have he : handleAutoSold s n = ({ s with timerRunning := false }, []) := by
      unfold handleAutoSold
      simp [ha]
    rw [he]
    exact inv_same_core _ _ hI rfl rfl rfl
  rcases hcp : a.currentPlayer with _ | pid
  · have he : handleAutoSold s n = ({ s with timerRunning := false }, []) := by
      unfold handleAutoSold
      simp [ha, hcp]
    rw [he]
    exact inv_same_core _ _ hI rfl rfl rfl
  rcases hp : findPlayer s.players pid with _ | p
  · have he : handleAutoSold s n = ({ s with timerRunning := false }, []) := by
      unfold handleAutoSold
      simp [ha, hcp, hp]
    rw [he]
    exact inv_same_core _ _ hI rfl rfl rfl
  obtain ⟨a', ha', hcp', hact', hhb'⟩ := handleAutoSold_auction_reset s n a pid p ha hcp hp
  obtain ⟨h1, h2, h3, h4, h5⟩ := hI
  have hreset : ∀ a'', (handleAutoSold s n).1.auction = some a'' →
      0 ≤ a''.currentHighBid.amount ∧ ∀ tid t, a''.currentHighBid.team = some tid →
        findTeam (handleAutoSold s n).1.teams tid = some t →
        a''.currentHighBid.amount ≤ t.remainingPoints := by
    intro a'' h
    rw [ha'] at h
    have h' := Option.some.inj h
    subst h'
    rw [hhb']
    exact ⟨by norm_num, fun tid t h1' h2' => by cases h1'⟩
  rcases hw : a.currentHighBid.team.bind (findTeam s.teams) with _ | t
  · obtain ⟨hteams, hplayers, hbids, hunsold⟩ :=
      handleAutoSold_unsold_shape s n a pid p ha hcp hp hw
    refine ⟨?_, ?_, ?_, hreset, ?_⟩
    · rw [hteams]; exact h1
    · rw [hplayers]
      intro q hq
      rcases mem_updatePlayer hq with ⟨v, hv, rfl⟩
      split <;> exact h2 v hv
    · rw [hplayers]
      intro q hq
      rcases mem_updatePlayer hq with ⟨v, hv, rfl⟩
      split <;> exact h3 v hv
    · rw [hteams]; exact h5
  · obtain ⟨hteams, hplayers, hbids, hunsold⟩ :=
      handleAutoSold_winner_shape s n a pid p t ha hcp hp hw
    obtain ⟨ht0, hteam0⟩ := bind_findTeam_some hw
    have hamt := h4 a ha
    have hbound := hamt.2 t.id t hteam0 ht0
    have htmem := findTeam_mem ht0
    refine ⟨?_, ?_, ?_, hreset, ?_⟩
    · rw [hteams]
      intro u hu
      rcases mem_updateTeam hu with ⟨v, hv, rfl⟩
      split
      · next hid =>
          have hvt : v = t := List.inj_on_of_nodup_map h5 hv htmem hid
          rw [hvt]
          show 0 ≤ t.remainingPoints - a.currentHighBid.amount
          have h1t := h1 t htmem
          omega
      · exact h1 v hv
    · rw [hplayers]
      intro q hq
      rcases mem_updatePlayer hq with ⟨v, hv, rfl⟩
      split <;> exact h2 v hv
    · rw [hplayers]
      intro q hq
      rcases mem_updatePlayer hq with ⟨v, hv, rfl⟩
      split
      · exact hamt.1
      · exact h3 v hv
    · rw [hteams, map_id_updateTeam s.teams t.id
        (fun u =>
          { u with
              remainingPoints := u.remainingPoints - a.currentHighBid.amount
              rosterSlotsFilled := u.rosterSlotsFilled + 1
              players := u.players ++ [p.id] })
        (fun u => rfl)]
      exact h5



lemma inv_adminStartAuction (s : EngineState) (adm : Bool) (pid now : Nat)
    (hI : Inv s) : Inv (adminStartAuction s adm pid now).1 := by
  unfold adminStartAuction
  split
  · exact hI
  split
  · exact hI
  rcases hp : findPlayer s.players pid with _ | p <;> simp only [hp]
  · exact hI
  split
  · exact hI
  · exact inv_startAuctionForPlayer s pid now hI

lemma inv_pauseAuction (s : EngineState) (adm : Bool) (hI : Inv s) :
    Inv (pauseAuction s adm).1 := by
  unfold pauseAuction
  split
  · exact hI
  rcases ha : s.auction with _ | a <;> simp only [ha]
  · exact hI
  · refine inv_auction_replace s _ hI rfl rfl ?_
    intro a' h
    have h' := Option.some.inj h
    exact Or.inl ⟨a, ha, by rw [← h']⟩

lemma inv_resumeAuction (s : EngineState) (adm : Bool) (hI : Inv s) :
    Inv (resumeAuction s adm).1 := by
  unfold resumeAuction
  split
  · exact hI
  rcases ha : s.auction with _ | a <;> simp only [ha]
  · exact hI
  split
  · refine inv_auction_replace s _ hI rfl rfl ?_
    intro a' h
    have h' := Option.some.inj h
    exact Or.inl ⟨a, ha, by rw [← h']⟩
  · exact hI

lemma inv_undoSale (s : EngineState) (adm : Bool) (pid : Nat) (hI : Inv s) :
    Inv (undoSale s adm pid).1 := by
  unfold undoSale
  split
  · exact hI
  rcases hp : findPlayer s.players pid with _ | p <;> simp only [hp]
  · exact hI
  split
  · exact hI
  obtain ⟨h1, h2, h3, h4, h5⟩ := hI
  have hpm := findPlayer_mem hp
  have hsp0 : 0 ≤ p.soldPrice.getD 0 := h3 p hpm
  have hplayers : ∀ q ∈ updatePlayer s.players p.id (fun q =>
      { q with
          status := PStatus.UNSOLD
          soldTo := none
          soldPrice := none
          soldAt := none }), 0 ≤ q.basePrice ∧ 0 ≤ q.soldPrice.getD 0 := by
    intro q hq
    rcases mem_updatePlayer hq with ⟨v, hv, rfl⟩
    constructor
    · split <;> exact h2 v hv
    · split
      · norm_num
      · exact h3 v hv
  rcases hw : p.soldTo.bind (findTeam s.teams) with _ | t <;> simp only [hw]
  · refine ⟨h1, fun q hq => (hplayers q hq).1, fun q hq => (hplayers q hq).2, ?_, h5⟩
    intro a' h
    exact h4 a' h
  · refine ⟨?_, fun q hq => (hplayers q hq).1, fun q hq => (hplayers q hq).2, ?_, ?_⟩
    · intro u hu
      rcases mem_updateTeam hu with ⟨v, hv, rfl⟩
      split
      · have h1v := h1 v hv
        show 0 ≤ v.remainingPoints + p.soldPrice.getD 0
        omega
      · exact h1 v hv
    · intro a' h
      have h4a := h4 a' h
      refine ⟨h4a.1, ?_⟩
      intro tid t' h1' h2'
      rw [findTeam_updateTeam s.teams t.id tid
        (fun u =>
          { u with
              remainingPoints := u.remainingPoints + p.soldPrice.getD 0
              rosterSlotsFilled := u.rosterSlotsFilled - 1
              players := u.players.filter (fun q => q ≠ p.id) })
        (fun u => rfl)] at h2'
      rcases hfind : findTeam s.teams tid with _ | u
      · rw [hfind] at h2'
        cases h2'
      · rw [hfind] at h2'
        have h2'' := Option.some.inj h2'
        have hbound := h4a.2 tid u h1' hfind
        rw [← h2'']
        by_cases hid : u.id = t.id
        · simp only []
          rw [if_pos hid]
          show a'.currentHighBid.amount ≤ u.remainingPoints + p.soldPrice.getD 0
          omega
        · simp only []
          rw [if_neg hid]
          exact hbound
    · rw [map_id_updateTeam s.teams t.id
        (fun u =>
          { u with
              remainingPoints := u.remainingPoints + p.soldPrice.getD 0
              rosterSlotsFilled := u.rosterSlotsFilled - 1
              players := u.players.filter (fun q => q ≠ p.id) })
        (fun u => rfl)]
      exact h5



lemma inv_processNext (fuel : Nat) (s : EngineState) (now : Nat) (hI : Inv s) :
    Inv (processNextPlayerInQueue fuel s now).1 := by
  induction fuel generalizing s with
  | zero => exact hI
  | succ fuel ih =>
    unfold processNextPlayerInQueue
    rcases hq : s.playerQueue with _ | ⟨pid, rest⟩ <;> simp only [hq]
    · split
      · exact ih _ (inv_same_core _ _ hI rfl rfl rfl)
      · exact inv_same_core _ _ hI rfl rfl rfl
    · rcases hp : findPlayer s.players pid with _ | p <;> simp only [hp]
      · exact ih _ (inv_same_core _ _ hI rfl rfl rfl)
      · split
        · exact inv_startAuctionForPlayer _ _ _ (inv_same_core _ _ hI rfl rfl rfl)
        · exact ih _ (inv_same_core _ _ hI rfl rfl rfl)

lemma inv_firePendingAdvance (fuel : Nat) (s : EngineState) (now : Nat)
    (hI : Inv s) : Inv (firePendingAdvance fuel s now).1 := by
  unfold firePendingAdvance
  split
  · exact inv_processNext fuel _ now (inv_same_core _ _ hI rfl rfl rfl)
  · exact hI

lemma inv_startAutoAuction (rand : Int → Nat → Nat) (fuel : Nat)
    (s : EngineState) (adm : Bool) (now : Nat) (hI : Inv s) :
    Inv (startAutoAuction rand fuel s adm now).1 := by
  unfold startAutoAuction
  split
  · exact hI
  split
  · exact hI
  · exact inv_processNext fuel _ now (inv_same_core _ _ hI rfl rfl rfl)

lemma inv_stopAutoAuction (s : EngineState) (adm : Bool) (hI : Inv s) :
    Inv (stopAutoAuction s adm).1 := by
  unfold stopAutoAuction
  split
  · exact hI
  · exact inv_same_core _ _ hI rfl rfl rfl

lemma inv_timerTick (s : EngineState) (now : Nat) (hI : Inv s) :
    Inv (timerTick s now).1 := by
  unfold timerTick
  split
  · split
    · exact inv_handleAutoSold _ now (inv_same_core _ _ hI rfl rfl rfl)
    · exact inv_same_core _ _ hI rfl rfl rfl
  · exact hI

lemma inv_step {s s' : EngineState} (h : Step s s') (hI : Inv s) : Inv s' := by
  cases h with
  | bid s sock amt now => exact inv_placeBid s sock amt now hI
  | manualStart s adm pid now => exact inv_adminStartAuction s adm pid now hI
  | pause s adm => exact inv_pauseAuction s adm hI
  | resume s adm => exact inv_resumeAuction s adm hI
  | undo s adm pid => exact inv_undoSale s adm pid hI
  | autoStart rand fuel s adm now => exact inv_startAutoAuction rand fuel s adm now hI
  | autoStop s adm => exact inv_stopAutoAuction s adm hI
  | settle s now => exact inv_handleAutoSold s now hI
  | tick s now => exact inv_timerTick s now hI
  | advance fuel s now => exact inv_processNext fuel s now hI
  | fire fuel s now => exact inv_firePendingAdvance fuel s now hI
  | summaryOn s => exact inv_same_core _ _ hI rfl rfl rfl
  | summaryOff s => exact inv_same_core _ _ hI rfl rfl rfl
  | connect s conns => exact inv_same_core _ _ hI rfl rfl rfl

/-- C8: budgetRemaining never becomes negative under any sequence of the
engine's operations: a bid is accepted only when its amount is within the
bidder's current remaining points, settlement debits exactly the accepted
high-bid amount (which the invariant keeps covered by the winner's
budget), and undoSale only credits; hence from any state satisfying the
non-negativity invariant Inv, every reachable state keeps every team's
remainingPoints non-negative. -/
theorem budget_never_negative (s0 s : EngineState) (hI : Inv s0)
    (h : Reachable s0 s) :
    ∀ t ∈ s.teams, 0 ≤ t.remainingPoints := by
  have hinv : Inv s := by
    induction h with
    | refl => exact hI
    | tail hsteps hstep ih => exact inv_step hstep ih
  exact hinv.1


/-- C8 witness: the example starting state satisfies the invariant and is
reachable from itself, so both example bidders' budgets are
non-negative. -/
theorem budget_never_negative_witness :
    0 ≤ teamA.remainingPoints ∧ 0 ≤ teamB.remainingPoints := by
  have hInv : Inv stateIdle := by
    refine ⟨by decide, by decide, by decide, ?_, by decide⟩
    intro a h
    simp [stateIdle] at h
  have h := budget_never_negative stateIdle stateIdle hInv Relation.ReflTransGen.refl
  exact ⟨h teamA (by decide), h teamB (by decide)⟩

end BPL
